import Mathlib

/-!
Verification of the adaptive-width Gaussian KDE (awkde) against its
specification.  The repository's visible source is the 2D example driver
`src/awkde/example/example.py`; the KDE engine it exercises
(`GaussianKDE.fit` / `predict` / `sample` / `to_json` / `from_json`) is not
part of the visible source, so those operations are modelled from the
specification (each such definition's doc comment says so).  The example
drives the engine in diagonal-covariance mode (`diag_cov=True`), and the
diagonal mode is what is modelled here.  Real numbers stand for the
program's floating-point values; every real value is finite, so
"finite" claims become positivity/equality claims, and IEEE infinities
produced by `log(0)` are modelled explicitly with `EReal` where they can
occur (the demo's `sigma_sam` construction).
-/

open Real

namespace AWKDE

/-! ## Demo-script embedding (from `src/awkde/example/example.py`) -/

/-- The decay constant `a = 100.0` of the demo script (`example.py` line 24). -/
def aConst : ℝ := 100.0

/-- Embedding of `sigma_sam = -np.log(u1 * u2) / a` (`example.py` lines 33-34)
for a single index, with numpy/IEEE semantics: `np.log(0.0)` evaluates to
`-inf`, so a zero product yields `+inf`; every other product of uniforms in
`[0, 1)` yields the finite real `-log(u1*u2)/a`.  `EReal` carries the
possible infinity. -/
noncomputable def sigma_sam (u1 u2 : ℝ) : EReal :=
  if u1 * u2 = 0 then ⊤ else ((-Real.log (u1 * u2)) / aConst : ℝ)

/-! ## Gaussian kernels (diagonal covariance), pointwise layer -/

/-- Modelled from the spec: the one-dimensional Gaussian density
`N(x; mu, v)` with variance `v`, the kernel underlying every stage of the
pipeline (§4.3, §4.5). -/
noncomputable def normPdf (mu v x : ℝ) : ℝ :=
  Real.exp (-(x - mu) ^ 2 / (2 * v)) / Real.sqrt (2 * Real.pi * v)

/-- Modelled from the spec: the `d`-dimensional Gaussian density with
diagonal covariance, a product of per-coordinate one-dimensional
densities (§4.1 diagonal mode, §4.5). -/
noncomputable def gaussDiag {d : ℕ} (mu v x : Fin d → ℝ) : ℝ :=
  ∏ k, normPdf (mu k) (v k) (x k)

/-- Modelled from the spec: log-space one-dimensional Gaussian density,
`log N(x; mu, v)` (§4.3, §4.5 "always computable in log-space"). -/
noncomputable def logNormPdf (mu v x : ℝ) : ℝ :=
  -(x - mu) ^ 2 / (2 * v) - Real.log (Real.sqrt (2 * Real.pi * v))

/-- Modelled from the spec: log-space diagonal `d`-dimensional Gaussian
density, the sum of the per-coordinate log densities. -/
noncomputable def logGaussDiag {d : ℕ} (mu v x : Fin d → ℝ) : ℝ :=
  ∑ k, logNormPdf (mu k) (v k) (x k)

/-- Modelled from the spec: numerically stable log-sum-exp with the usual
max-shift, `LSE(a) = M + log Σ_i exp(a_i - M)` where `M = max_i a_i`
(§4.5, glossary).  Empty input gives `0` (never reached: `n ≥ 2`). -/
noncomputable def logSumExp {n : ℕ} (a : Fin n → ℝ) : ℝ :=
  if h : 0 < n then
    let M := Finset.univ.sup' (Finset.univ_nonempty_iff.mpr ⟨⟨0, h⟩⟩) a
    M + Real.log (∑ i, Real.exp (a i - M))
  else 0

/-! ## Fit pipeline, mathematical layer (per-point semantics)

The fitted model of dimension `d` on `n` sample points is described by the
sample matrix `X : Fin n → Fin d → ℝ`, the scalar global bandwidth `h`,
the diagonal global covariance `cov : Fin d → ℝ` and the sensitivity
exponent `alpha`; the stages below are the spec's §4.3-§4.5 pipeline. -/

/-- Modelled from the spec (§4.3 PilotDensityEstimator, missing from the
visible source): the self-inclusive fixed-bandwidth pilot density
`pilot(i) = (1/n) Σ_j N(x_i; x_j, h² · cov)`. -/
noncomputable def pilotDensity {n d : ℕ} (X : Fin n → Fin d → ℝ) (h : ℝ)
    (cov : Fin d → ℝ) (i : Fin n) : ℝ :=
  (1 / (n : ℝ)) * ∑ j, gaussDiag (X j) (fun k => h ^ 2 * cov k) (X i)

/-- Modelled from the spec (§4.4): geometric mean computed as
`exp(mean(log ·))` for numerical stability. -/
noncomputable def geomMean {n : ℕ} (p : Fin n → ℝ) : ℝ :=
  Real.exp ((1 / (n : ℝ)) * ∑ i, Real.log (p i))

/-- Modelled from the spec (§4.4 LocalBandwidthAdapter, missing from the
visible source): `LocalFactor[i] = (pilot(i) / g) ^ (-alpha)` with `g` the
geometric mean of the pilot densities. -/
noncomputable def localFactor {n d : ℕ} (X : Fin n → Fin d → ℝ) (h : ℝ)
    (cov : Fin d → ℝ) (alpha : ℝ) (i : Fin n) : ℝ :=
  (pilotDensity X h cov i / geomMean (pilotDensity X h cov)) ^ (-alpha)

/-- Modelled from the spec (§3 Component): the diagonal covariance of
mixture component `i`, `GlobalBandwidth² · GlobalCovariance · LocalFactor[i]²`. -/
noncomputable def componentCov {n d : ℕ} (X : Fin n → Fin d → ℝ) (h : ℝ)
    (cov : Fin d → ℝ) (alpha : ℝ) (i : Fin n) : Fin d → ℝ :=
  fun k => h ^ 2 * cov k * (localFactor X h cov alpha i) ^ 2

/-- Modelled from the spec (§4.5): the equally weighted Gaussian mixture
density `density(q) = (1/n) Σ_i N(q; x_i, covs i)` for arbitrary
per-component diagonal covariances `covs`. -/
noncomputable def mixtureDensity {n d : ℕ} (means : Fin n → Fin d → ℝ)
    (covs : Fin n → Fin d → ℝ) (q : Fin d → ℝ) : ℝ :=
  (1 / (n : ℝ)) * ∑ i, gaussDiag (means i) (covs i) q

/-- Modelled from the spec (§4.5 GaussianMixtureModel.predict, missing from
the visible source): the log density at a query point, evaluated in
log-space via log-sum-exp across the `n` components. -/
noncomputable def predictLog {n d : ℕ} (means : Fin n → Fin d → ℝ)
    (covs : Fin n → Fin d → ℝ) (q : Fin d → ℝ) : ℝ :=
  logSumExp (fun i => Real.log (1 / (n : ℝ)) + logGaussDiag (means i) (covs i) q)

/-- Modelled from the spec (§4.5): `predict` with the configuration switch
`retLog`; the density branch exponentiates the log-space value. -/
noncomputable def predict {n d : ℕ} (means : Fin n → Fin d → ℝ)
    (covs : Fin n → Fin d → ℝ) (q : Fin d → ℝ) (retLog : Bool) : ℝ :=
  if retLog then predictLog means covs q else Real.exp (predictLog means covs q)

/-! ## Operational layer: configuration, errors, fitted model

Modelled from the spec (§3, §6, §7): the `GaussianKDE` class itself is not
part of the visible source, so its operational API — validation order,
error taxonomy, serialization, sampling — is modelled from the
specification's words. -/

/-- Modelled from the spec (§7): the error taxonomy of the core. -/
inductive KDEError where
  | degenerateInput
  | invalidConfiguration
  | dimensionMismatch
  | corruptModel
deriving DecidableEq

/-- Modelled from the spec (§4.2): the global-bandwidth rule,
`silverman`, `scott`, or a caller-supplied fixed scalar. -/
inductive BwRule where
  | silverman
  | scott
  | fixed (v : ℝ)

/-- Modelled from the spec (§6): the fit configuration
`{glob_bw, alpha, diag_cov}` of `GaussianKDE(glob_bw="silverman",
alpha=0.5, diag_cov=True)`. -/
structure KDEConfig where
  glob_bw : BwRule
  alpha : ℝ
  diag_cov : Bool

/-- Modelled from the spec (§2, §5): the external random generator, a
deterministic stream of draws together with a position; advancing the
position is the only state change the core may cause. -/
structure Rng where
  stream : ℕ → ℝ
  pos : ℕ

/-- Modelled from the spec (§3 FittedModel): the unit of serialization —
sample (component means), diagonal global covariance, global bandwidth,
local factor vector, configuration. -/
structure FittedModel where
  dim : ℕ
  sample : List (List ℝ)
  globCov : List ℝ
  globBw : ℝ
  locFac : List ℝ
  alpha : ℝ
  diagMode : Bool
  bwRule : BwRule

/-! ## List-level numeric kernels used by the operational layer -/

/-- Modelled from the spec: list-level diagonal Gaussian density,
coordinate-wise product of `normPdf`. -/
noncomputable def gaussDiagL (mu v x : List ℝ) : ℝ :=
  (List.zipWith (fun m p => normPdf m p.1 p.2) mu (v.zip x)).prod

/-- Modelled from the spec: list-level log-space diagonal Gaussian
density, coordinate-wise sum of `logNormPdf`. -/
noncomputable def logGaussDiagL (mu v x : List ℝ) : ℝ :=
  (List.zipWith (fun m p => logNormPdf m p.1 p.2) mu (v.zip x)).sum

/-- Modelled from the spec: list-level max-shifted log-sum-exp. -/
noncomputable def logSumExpL : List ℝ → ℝ
  | [] => 0
  | x :: xs =>
    let M := xs.foldl max x
    M + Real.log (((x :: xs).map (fun a => Real.exp (a - M))).sum)

/-- Modelled from the spec (§4.3): list-level self-inclusive pilot
density of a point `xi` under the fixed global bandwidth. -/
noncomputable def pilotL (sample : List (List ℝ)) (h : ℝ) (cov : List ℝ)
    (xi : List ℝ) : ℝ :=
  (1 / (sample.length : ℝ)) *
    (sample.map (fun xj => gaussDiagL xj (cov.map fun c => h ^ 2 * c) xi)).sum

/-- Modelled from the spec (§4.4): list-level geometric mean via
`exp(mean(log ·))`. -/
noncomputable def geomMeanL (p : List ℝ) : ℝ :=
  Real.exp ((1 / (p.length : ℝ)) * (p.map Real.log).sum)

/-- Modelled from the spec (§4.1): per-feature sample mean. -/
noncomputable def featureMean (sample : List (List ℝ)) (k : ℕ) : ℝ :=
  (sample.map (fun p => p.getD k 0)).sum / (sample.length : ℝ)

/-- Modelled from the spec (§4.1 diagonal mode): per-feature unbiased
sample variance (divide by `n - 1`). -/
noncomputable def featureVar (sample : List (List ℝ)) (k : ℕ) : ℝ :=
  (sample.map (fun p => (p.getD k 0 - featureMean sample k) ^ 2)).sum
    / ((sample.length : ℝ) - 1)

/-- Modelled from the spec (§4.1 diagonal mode): the diagonal global
covariance, the vector of per-feature unbiased variances. -/
noncomputable def diagCovariance (sample : List (List ℝ)) (d : ℕ) : List ℝ :=
  (List.range d).map (featureVar sample)

/-- Modelled from the spec (§4.2): the scalar global bandwidth for each
rule; `silverman` and `scott` share the exponent `-1/(d+4)`. -/
noncomputable def bandwidthOf (rule : BwRule) (n d : ℕ) : ℝ :=
  match rule with
  | BwRule.silverman => ((n : ℝ) * ((d : ℝ) + 2) / 4) ^ (-(1 : ℝ) / ((d : ℝ) + 4))
  | BwRule.scott => (n : ℝ) ^ (-(1 : ℝ) / ((d : ℝ) + 4))
  | BwRule.fixed v => v

/-- Modelled from the spec (§4.2): a `fixed` rule with a non-positive
value is an invalid configuration. -/
noncomputable def invalidFixedBw : BwRule → Bool
  | BwRule.fixed v => decide (v ≤ 0)
  | _ => false

/-! ## fit: validate-then-compute pipeline -/

/-- Modelled from the spec (§6 Fit, §7, missing from the visible source):
`fit` validates the configuration first (`alpha ∈ [0,1]`, positive fixed
bandwidth), then the input (`n ≥ 2`, no zero-variance feature), and only
then runs the numeric pipeline covariance → bandwidth → pilot → local
factors, producing the fitted model. -/
noncomputable def fitM (cfg : KDEConfig) (sample : List (List ℝ)) :
    Except KDEError FittedModel :=
  if cfg.alpha < 0 ∨ 1 < cfg.alpha then Except.error KDEError.invalidConfiguration
  else if invalidFixedBw cfg.glob_bw then Except.error KDEError.invalidConfiguration
  else if sample.length < 2 then Except.error KDEError.degenerateInput
  else
    let n := sample.length
    let d := (sample.headD []).length
    let cov := diagCovariance sample d
    if ∃ c ∈ cov, c = 0 then Except.error KDEError.degenerateInput
    else
      let h := bandwidthOf cfg.glob_bw n d
      let pil := sample.map (pilotL sample h cov)
      let g := geomMeanL pil
      let lam := pil.map (fun p => (p / g) ^ (-cfg.alpha))
      Except.ok ⟨d, sample, cov, h, lam, cfg.alpha, cfg.diag_cov, cfg.glob_bw⟩

/-! ## predict: batched evaluation with per-call dimension check -/

/-- Modelled from the spec (§4.5): log-space evaluation of the mixture at
one query point via log-sum-exp across the components, with the
`retLog` switch choosing log density or density. -/
noncomputable def predictPointM (M : FittedModel) (q : List ℝ) (retLog : Bool) : ℝ :=
  let n := M.sample.length
  let terms := List.zipWith
    (fun x l => Real.log (1 / (n : ℝ)) +
      logGaussDiagL x (M.globCov.map fun c => M.globBw ^ 2 * c * l ^ 2) q)
    M.sample M.locFac
  let L := logSumExpL terms
  if retLog then L else Real.exp L

/-- Modelled from the spec (§4.5, §7, missing from the visible source):
batched `predict` as a state-passing call on the model — it returns the
per-query densities together with the (unchanged) model, and rejects the
whole batch with `DimensionMismatchError` when any query point's
dimensionality differs from the model's `d`. -/
noncomputable def predictM (M : FittedModel) (qs : List (List ℝ)) (retLog : Bool) :
    Except KDEError (List ℝ) × FittedModel :=
  if qs.all (fun q => q.length == M.dim) then
    (Except.ok (qs.map (fun q => predictPointM M q retLog)), M)
  else (Except.error KDEError.dimensionMismatch, M)

/-! ## Serialization -/

/-- Modelled from the spec (§4.6): the structured persisted document; every
field optional so that a missing field is representable. -/
structure ModelDoc where
  dim : Option ℕ
  sample : Option (List (List ℝ))
  globCov : Option (List ℝ)
  globBw : Option ℝ
  locFac : Option (List ℝ)
  alpha : Option ℝ
  diagMode : Option Bool
  bwRule : Option BwRule

/-- Modelled from the spec (§4.6 `to_json`, missing from the visible
source): export every model field into the structured document. -/
def serialize (M : FittedModel) : ModelDoc :=
  ⟨some M.dim, some M.sample, some M.globCov, some M.globBw, some M.locFac,
    some M.alpha, some M.diagMode, some M.bwRule⟩

/-- The well-formedness invariant a fitted model satisfies (§3): consistent
dimensions, strictly positive covariance entries and bandwidth. -/
def wellFormed (M : FittedModel) : Prop :=
  (∀ p ∈ M.sample, p.length = M.dim) ∧ M.globCov.length = M.dim ∧
    M.locFac.length = M.sample.length ∧ (∀ c ∈ M.globCov, 0 < c) ∧ 0 < M.globBw

/-- Modelled from the spec (§4.6 `from_json`, missing from the visible
source): reconstruct the model, failing with `CorruptModelError` on a
missing field, a dimension mismatch between arrays, or a non-positive
covariance/bandwidth entry. -/
noncomputable def deserialize (doc : ModelDoc) : Except KDEError FittedModel :=
  match doc.dim, doc.sample, doc.globCov, doc.globBw, doc.locFac,
      doc.alpha, doc.diagMode, doc.bwRule with
  | some d, some s, some cov, some bw, some lam, some a, some dm, some rule =>
    if (∀ p ∈ s, p.length = d) ∧ cov.length = d ∧ lam.length = s.length ∧
        (∀ c ∈ cov, 0 < c) ∧ 0 < bw then
      Except.ok ⟨d, s, cov, bw, lam, a, dm, rule⟩
    else Except.error KDEError.corruptModel
  | _, _, _, _, _, _, _, _ => Except.error KDEError.corruptModel

/-! ## sample: reproducible mixture sampling -/

/-- Modelled from the spec (§4.5 sample, missing from the visible source):
one draw — one component-selection draw from the uniform stream picks the
component index, then one Gaussian draw consumes the next `d` stream
values as standard normals, scaled through the component's diagonal
Cholesky factor `globBw · locFac[i] · sqrt(cov_k)`.  The returned
generator differs from the input only in its position, advanced by
`1 + d`. -/
noncomputable def sampleOne (M : FittedModel) (r : Rng) : List ℝ × Rng :=
  let u := r.stream r.pos
  let n := M.sample.length
  let i := min (Int.toNat ⌊u * (n : ℝ)⌋) (n - 1)
  let mean := M.sample.getD i []
  let lam := M.locFac.getD i 1
  let z := (List.range M.dim).map (fun k => r.stream (r.pos + 1 + k))
  let pt := List.zipWith (fun p zk => p.1 + M.globBw * lam * Real.sqrt p.2 * zk)
    (mean.zip M.globCov) z
  (pt, ⟨r.stream, r.pos + 1 + M.dim⟩)

/-- Modelled from the spec (§4.5): iterate `sampleOne`, threading the
generator through the `n_samples` draws in order. -/
noncomputable def sampleSeq (M : FittedModel) : ℕ → Rng → List (List ℝ) × Rng
  | 0, r => ([], r)
  | Nat.succ k, r =>
    let pr := sampleOne M r
    let rest := sampleSeq M k pr.2
    (pr.1 :: rest.1, rest.2)

/-- Modelled from the spec (§4.5, §5): `sample` as a state-passing call —
it returns the drawn points, the advanced generator, and the (unchanged)
model. -/
noncomputable def sampleM (M : FittedModel) (ns : ℕ) (r : Rng) :
    (List (List ℝ) × Rng) × FittedModel :=
  (sampleSeq M ns r, M)

/-! ## Basic positivity facts -/

lemma normPdf_pos (mu : ℝ) {v : ℝ} (hv : 0 < v) (x : ℝ) : 0 < normPdf mu v x := by
  unfold normPdf
  have h2 : 0 < 2 * Real.pi * v := by positivity
  exact div_pos (Real.exp_pos _) (Real.sqrt_pos.mpr h2)

lemma gaussDiag_pos {d : ℕ} (mu : Fin d → ℝ) {v : Fin d → ℝ}
    (hv : ∀ k, 0 < v k) (x : Fin d → ℝ) : 0 < gaussDiag mu v x := by
  unfold gaussDiag
  exact Finset.prod_pos fun k _ => normPdf_pos (mu k) (hv k) (x k)

lemma pilotDensity_pos {n d : ℕ} (hn : 0 < n) (X : Fin n → Fin d → ℝ) {h : ℝ}
    (hh : h ≠ 0) {cov : Fin d → ℝ} (hcov : ∀ k, 0 < cov k) (i : Fin n) :
    0 < pilotDensity X h cov i := by
  unfold pilotDensity
  have hnum : (0 : ℝ) < 1 / (n : ℝ) := by
    have : (0 : ℝ) < (n : ℝ) := Nat.cast_pos.mpr hn
    positivity
  have hh2 : (0 : ℝ) < h ^ 2 := by positivity
  refine mul_pos hnum (Finset.sum_pos (fun j _ => ?_) ?_)
  · exact gaussDiag_pos (X j) (fun k => mul_pos hh2 (hcov k)) (X i)
  · exact ⟨i, Finset.mem_univ i⟩

lemma geomMean_pos {n : ℕ} (p : Fin n → ℝ) : 0 < geomMean p :=
  Real.exp_pos _

lemma localFactor_pos {n d : ℕ} (hn : 0 < n) (X : Fin n → Fin d → ℝ) {h : ℝ}
    (hh : h ≠ 0) {cov : Fin d → ℝ} (hcov : ∀ k, 0 < cov k) (alpha : ℝ) (i : Fin n) :
    0 < localFactor X h cov alpha i := by
  unfold localFactor
  exact Real.rpow_pos_of_pos
    (div_pos (pilotDensity_pos hn X hh hcov i) (geomMean_pos _)) _

lemma mixtureDensity_pos {n d : ℕ} (hn : 0 < n) (means : Fin n → Fin d → ℝ)
    {covs : Fin n → Fin d → ℝ} (hcovs : ∀ i k, 0 < covs i k) (q : Fin d → ℝ) :
    0 < mixtureDensity means covs q := by
  unfold mixtureDensity
  have hnum : (0 : ℝ) < 1 / (n : ℝ) := by
    have : (0 : ℝ) < (n : ℝ) := Nat.cast_pos.mpr hn
    positivity
  refine mul_pos hnum (Finset.sum_pos (fun i _ => ?_) ⟨⟨0, hn⟩, Finset.mem_univ _⟩)
  exact gaussDiag_pos (means i) (hcovs i) q

/-! ## Log-space evaluation agrees with direct evaluation -/

lemma logSumExp_eq_log_sum {n : ℕ} (hn : 0 < n) (a : Fin n → ℝ) :
    logSumExp a = Real.log (∑ i, Real.exp (a i)) := by
  unfold logSumExp
  rw [dif_pos hn]
  have hpos : 0 < ∑ i, Real.exp (a i) :=
    Finset.sum_pos (fun i _ => Real.exp_pos _) ⟨⟨0, hn⟩, Finset.mem_univ _⟩
  simp only [Real.exp_sub]
  rw [← Finset.sum_div, Real.log_div (ne_of_gt hpos) (Real.exp_ne_zero _), Real.log_exp]
  ring

lemma exp_logNormPdf (mu : ℝ) {v : ℝ} (hv : 0 < v) (x : ℝ) :
    Real.exp (logNormPdf mu v x) = normPdf mu v x := by
  unfold logNormPdf normPdf
  rw [Real.exp_sub, Real.exp_log (Real.sqrt_pos.mpr (by positivity))]

lemma exp_logGaussDiag {d : ℕ} (mu : Fin d → ℝ) {v : Fin d → ℝ}
    (hv : ∀ k, 0 < v k) (x : Fin d → ℝ) :
    Real.exp (logGaussDiag mu v x) = gaussDiag mu v x := by
  unfold logGaussDiag gaussDiag
  rw [Real.exp_sum]
  exact Finset.prod_congr rfl fun k _ => exp_logNormPdf (mu k) (hv k) (x k)

lemma predictLog_eq_log_mixture {n d : ℕ} (means : Fin n → Fin d → ℝ)
    {covs : Fin n → Fin d → ℝ} (q : Fin d → ℝ) (hn : 0 < n)
    (hcovs : ∀ i k, 0 < covs i k) :
    predictLog means covs q = Real.log (mixtureDensity means covs q) := by
  unfold predictLog
  rw [logSumExp_eq_log_sum hn]
  have hnum : (0 : ℝ) < 1 / (n : ℝ) := by
    have : (0 : ℝ) < (n : ℝ) := Nat.cast_pos.mpr hn
    positivity
  have hterm : ∀ i : Fin n,
      Real.exp (Real.log (1 / (n : ℝ)) + logGaussDiag (means i) (covs i) q)
        = (1 / (n : ℝ)) * gaussDiag (means i) (covs i) q := by
    intro i
    rw [Real.exp_add, Real.exp_log hnum, exp_logGaussDiag (means i) (hcovs i) q]
  rw [Finset.sum_congr rfl fun i _ => hterm i, ← Finset.mul_sum]
  rfl

/-! ## C1: predict returns the equally weighted mixture density -/

/-- C1: for a fitted model with `n ≥ 1` sample points and strictly positive
per-component diagonal covariances, `predict` with the density switch
returns the equally weighted Gaussian mixture density
`(1/n) Σ_i N(q; x_i, covs i)`, and with the log switch it returns the
logarithm of that same value, computed via log-sum-exp over the `n`
components. -/
theorem predict_is_mixture_density {n d : ℕ} (means : Fin n → Fin d → ℝ)
    (covs : Fin n → Fin d → ℝ) (q : Fin d → ℝ) (hn : 0 < n)
    (hcovs : ∀ i k, 0 < covs i k) :
    predict means covs q false = mixtureDensity means covs q ∧
    predict means covs q true = Real.log (mixtureDensity means covs q) := by
  constructor
  · show Real.exp (predictLog means covs q) = mixtureDensity means covs q
    rw [predictLog_eq_log_mixture means q hn hcovs,
      Real.exp_log (mixtureDensity_pos hn means hcovs q)]
  · show predictLog means covs q = Real.log (mixtureDensity means covs q)
    exact predictLog_eq_log_mixture means q hn hcovs

/-- Witness for `predict_is_mixture_density` at a concrete one-point,
one-dimensional model with unit covariance, query `0`. -/
theorem predict_is_mixture_density_witness :
    @predict 1 1 (fun _ _ => 0) (fun _ _ => 1) (fun _ => 0) false
        = @mixtureDensity 1 1 (fun _ _ => 0) (fun _ _ => 1) (fun _ => 0) ∧
    @predict 1 1 (fun _ _ => 0) (fun _ _ => 1) (fun _ => 0) true
        = Real.log (@mixtureDensity 1 1 (fun _ _ => 0) (fun _ _ => 1) (fun _ => 0)) :=
  predict_is_mixture_density _ _ _ (by decide) (fun _ _ => by norm_num)

/-! ## C2: the geometric-mean invariant of the local factors -/

/-- C2: for every successful fit on `n ≥ 2` points (nonzero bandwidth,
strictly positive diagonal covariance), the LocalFactor vector has
geometric mean exactly `1`, and every entry is strictly positive (hence
finite, as a real number). -/
theorem localFactor_geomMean_one {n d : ℕ} (X : Fin n → Fin d → ℝ) (h : ℝ)
    (cov : Fin d → ℝ) (alpha : ℝ) (hn : 2 ≤ n) (hh : h ≠ 0)
    (hcov : ∀ k, 0 < cov k) :
    geomMean (localFactor X h cov alpha) = 1 ∧
    ∀ i, 0 < localFactor X h cov alpha i := by
  have hn0 : 0 < n := lt_of_lt_of_le two_pos hn
  have hp : ∀ i, 0 < pilotDensity X h cov i :=
    fun i => pilotDensity_pos hn0 X hh hcov i
  have hg : 0 < geomMean (pilotDensity X h cov) := geomMean_pos _
  refine ⟨?_, fun i => localFactor_pos hn0 X hh hcov alpha i⟩
  have hne : ((n : ℝ)) ≠ 0 := ne_of_gt (Nat.cast_pos.mpr hn0)
  have hstep : ∀ i : Fin n, Real.log (localFactor X h cov alpha i)
      = (-alpha) * (Real.log (pilotDensity X h cov i)
          - Real.log (geomMean (pilotDensity X h cov))) := by
    intro i
    unfold localFactor
    rw [Real.log_rpow (div_pos (hp i) hg), Real.log_div (ne_of_gt (hp i)) (ne_of_gt hg)]
  have hsum : ∑ i, Real.log (localFactor X h cov alpha i) = 0 := by
    rw [Finset.sum_congr rfl fun i _ => hstep i, ← Finset.mul_sum,
      Finset.sum_sub_distrib, Finset.sum_const, Finset.card_univ, Fintype.card_fin,
      nsmul_eq_mul]
    have hlogg : Real.log (geomMean (pilotDensity X h cov))
        = (1 / (n : ℝ)) * ∑ i, Real.log (pilotDensity X h cov i) := Real.log_exp _
    rw [hlogg]
    field_simp
  unfold geomMean
  rw [hsum, mul_zero, Real.exp_zero]

/-- Witness for `localFactor_geomMean_one`: a two-point one-dimensional
sample with unit bandwidth and unit covariance. -/
theorem localFactor_geomMean_one_witness :
    geomMean (@localFactor 2 1 (fun j _ => (j : ℝ)) 1 (fun _ => 1) (1/2)) = 1 ∧
    ∀ i, 0 < @localFactor 2 1 (fun j _ => (j : ℝ)) 1 (fun _ => 1) (1/2) i :=
  localFactor_geomMean_one _ _ _ _ (by decide) (by norm_num) (fun _ => by norm_num)

/-! ## C3: the pilot density is self-inclusive -/

/-- C3: the pilot density at sample point `i` is the fixed-bandwidth KDE
over ALL `n` points evaluated at `x_i` — the sum splits into the
contributions of the other points plus point `i`'s own contribution, which
is included — and the local factor is `(pilot(i) / g) ^ (-alpha)` with `g`
the geometric mean of the `n` pilot densities. -/
theorem pilot_self_inclusive {n d : ℕ} (X : Fin n → Fin d → ℝ) (h : ℝ)
    (cov : Fin d → ℝ) (alpha : ℝ) (i : Fin n) :
    pilotDensity X h cov i
      = (1 / (n : ℝ)) *
        ((∑ j ∈ Finset.univ.erase i, gaussDiag (X j) (fun k => h ^ 2 * cov k) (X i))
          + gaussDiag (X i) (fun k => h ^ 2 * cov k) (X i)) ∧
    localFactor X h cov alpha i
      = (pilotDensity X h cov i / geomMean (pilotDensity X h cov)) ^ (-alpha) := by
  constructor
  · unfold pilotDensity
    rw [Finset.sum_erase_add Finset.univ _ (Finset.mem_univ i)]
  · rfl

/-! ## C6: alpha = 0 degenerates to the fixed-bandwidth KDE -/

/-- C6: fitting with `alpha = 0` makes every local factor equal to `1`, so
every component covariance equals `GlobalBandwidth² · GlobalCovariance`:
the adaptive model degenerates to the fixed-bandwidth KDE. -/
theorem alpha_zero_degenerates {n d : ℕ} (X : Fin n → Fin d → ℝ) (h : ℝ)
    (cov : Fin d → ℝ) (i : Fin n) :
    localFactor X h cov 0 i = 1 ∧
    componentCov X h cov 0 i = fun k => h ^ 2 * cov k := by
  have h1 : localFactor X h cov 0 i = 1 := by
    unfold localFactor
    rw [neg_zero, Real.rpow_zero]
  refine ⟨h1, funext fun k => ?_⟩
  unfold componentCov
  rw [h1, one_pow, mul_one]

/-! ## C7: normalization of the mixture density -/

lemma normPdf_eq_gaussianPDFReal (mu : ℝ) {v : ℝ} (hv : 0 < v) :
    normPdf mu v = ProbabilityTheory.gaussianPDFReal mu ⟨v, hv.le⟩ := by
  funext x
  rw [ProbabilityTheory.gaussianPDFReal_def]
  unfold normPdf
  rw [div_eq_inv_mul]
  norm_num

lemma integral_normPdf (mu : ℝ) {v : ℝ} (hv : 0 < v) :
    ∫ x, normPdf mu v x = 1 := by
  have hvne : (⟨v, hv.le⟩ : NNReal) ≠ 0 := by
    intro h0
    exact (ne_of_gt hv) (congrArg Subtype.val h0)
  rw [normPdf_eq_gaussianPDFReal mu hv]
  exact ProbabilityTheory.integral_gaussianPDFReal_eq_one mu hvne

lemma integrable_normPdf (mu : ℝ) {v : ℝ} (hv : 0 < v) :
    MeasureTheory.Integrable (normPdf mu v) := by
  rw [normPdf_eq_gaussianPDFReal mu hv]
  exact ProbabilityTheory.integrable_gaussianPDFReal mu _

lemma integrable_gaussDiag {d : ℕ} (mu : Fin d → ℝ) {v : Fin d → ℝ}
    (hv : ∀ k, 0 < v k) :
    MeasureTheory.Integrable (fun x : Fin d → ℝ => gaussDiag mu v x) :=
  MeasureTheory.Integrable.fintype_prod (fun k => integrable_normPdf (mu k) (hv k))

lemma integral_gaussDiag {d : ℕ} (mu : Fin d → ℝ) {v : Fin d → ℝ}
    (hv : ∀ k, 0 < v k) :
    ∫ x : Fin d → ℝ, gaussDiag mu v x = 1 := by
  unfold gaussDiag
  rw [MeasureTheory.integral_fintype_prod_eq_prod (Fin d)
    (fun k x => normPdf (mu k) (v k) x)]
  rw [Finset.prod_congr rfl fun k _ => integral_normPdf (mu k) (hv k)]
  exact Finset.prod_const_one

/-- C7: the density returned by `predict`, integrated over the whole
`d`-dimensional domain, equals `1`: the equally weighted mixture of
normalized Gaussian components is itself a normalized density. -/
theorem predict_density_normalized {n d : ℕ} (means : Fin n → Fin d → ℝ)
    (covs : Fin n → Fin d → ℝ) (hn : 0 < n) (hcovs : ∀ i k, 0 < covs i k) :
    (∫ q : Fin d → ℝ, predict means covs q false = 1) ∧
    (∫ q : Fin d → ℝ, mixtureDensity means covs q = 1) := by
  have hne : ((n : ℝ)) ≠ 0 := ne_of_gt (Nat.cast_pos.mpr hn)
  have hmix : ∫ q : Fin d → ℝ, mixtureDensity means covs q = 1 := by
    unfold mixtureDensity
    rw [MeasureTheory.integral_mul_left,
      MeasureTheory.integral_finset_sum Finset.univ
        (fun i _ => integrable_gaussDiag (means i) (hcovs i))]
    rw [Finset.sum_congr rfl fun i _ => integral_gaussDiag (means i) (hcovs i)]
    rw [Finset.sum_const, Finset.card_univ, Fintype.card_fin, nsmul_eq_mul, mul_one]
    field_simp
  refine ⟨?_, hmix⟩
  have hfun : (fun q : Fin d → ℝ => predict means covs q false)
      = fun q => mixtureDensity means covs q := by
    funext q
    show Real.exp (predictLog means covs q) = mixtureDensity means covs q
    rw [predictLog_eq_log_mixture means q hn hcovs,
      Real.exp_log (mixtureDensity_pos hn means hcovs q)]
  rw [hfun]
  exact hmix

/-- Witness for `predict_density_normalized` at a concrete one-point,
one-dimensional model with unit covariance. -/
theorem predict_density_normalized_witness :
    (∫ q : Fin 1 → ℝ, @predict 1 1 (fun _ _ => 0) (fun _ _ => 1) q false = 1) ∧
    (∫ q : Fin 1 → ℝ, @mixtureDensity 1 1 (fun _ _ => 0) (fun _ _ => 1) q = 1) :=
  predict_density_normalized _ _ (by decide) (fun _ _ => by norm_num)

/-! ## C10: the demo's `sigma_sam` construction -/

/-- C10: whenever both uniform draws lie in the open interval `(0, 1)`, the
demo's second feature `sigma_sam = -log(u1*u2)/a` is a finite, strictly
positive real; over draws from numpy's half-open `[0, 1)`, the entry is
non-finite (`+inf`) exactly when one of the draws is exactly `0`. -/
theorem sigma_sam_spec (u1 u2 : ℝ) :
    (0 < u1 → u1 < 1 → 0 < u2 → u2 < 1 →
      sigma_sam u1 u2 = ((-Real.log (u1 * u2)) / aConst : ℝ) ∧
      (0 : ℝ) < (-Real.log (u1 * u2)) / aConst) ∧
    (0 ≤ u1 → u1 < 1 → 0 ≤ u2 → u2 < 1 →
      (sigma_sam u1 u2 = ⊤ ↔ u1 = 0 ∨ u2 = 0)) := by
  constructor
  · intro h1 h1' h2 h2'
    have hprod : 0 < u1 * u2 := mul_pos h1 h2
    have hlt : u1 * u2 < 1 := by
      calc u1 * u2 < 1 * u2 := by exact mul_lt_mul_of_pos_right h1' h2
        _ = u2 := one_mul u2
        _ < 1 := h2'
    refine ⟨?_, ?_⟩
    · unfold sigma_sam
      rw [if_neg (ne_of_gt hprod)]
    · have hlog : Real.log (u1 * u2) < 0 := Real.log_neg hprod hlt
      have ha : (0 : ℝ) < aConst := by norm_num [aConst]
      exact div_pos (by linarith) ha
  · intro h1 h1' h2 h2'
    constructor
    · intro htop
      by_contra hne
      push_neg at hne
      obtain ⟨hne1, hne2⟩ := hne
      have hprod : u1 * u2 ≠ 0 := mul_ne_zero hne1 hne2
      unfold sigma_sam at htop
      rw [if_neg hprod] at htop
      exact (EReal.coe_ne_top _) htop
    · intro hzero
      have hprod : u1 * u2 = 0 := by
        rcases hzero with h | h <;> simp [h]
      unfold sigma_sam
      rw [if_pos hprod]

/-- Closed-form witness for `sigma_sam_spec`: at `u1 = u2 = 1/2` the entry is
finite and positive, and on `[0,1)` draws it is infinite exactly at a zero
draw (checked at `u1 = 0`). -/
theorem sigma_sam_spec_witness :
    (sigma_sam (1/2) (1/2) = ((-Real.log ((1/2) * (1/2))) / aConst : ℝ) ∧
      (0 : ℝ) < (-Real.log ((1/2) * (1/2))) / aConst) ∧
    (sigma_sam 0 (1/2) = ⊤ ↔ (0:ℝ) = 0 ∨ (1/2:ℝ) = 0) :=
  ⟨(sigma_sam_spec (1/2) (1/2)).1 (by norm_num) (by norm_num) (by norm_num) (by norm_num),
   (sigma_sam_spec 0 (1/2)).2 (by norm_num) (by norm_num) (by norm_num) (by norm_num)⟩

/-! ## C8: bad alpha is rejected before any computation -/

/-- C8: for every `alpha` outside `[0, 1]`, `fit` fails with
`InvalidConfigurationError`, and the result does not depend on the sample
at all — the configuration is rejected before any stage of the numeric
pipeline runs, so no partial state can arise. -/
theorem fit_rejects_bad_alpha (cfg : KDEConfig) (s : List (List ℝ))
    (hbad : cfg.alpha < 0 ∨ 1 < cfg.alpha) :
    fitM cfg s = Except.error KDEError.invalidConfiguration ∧
    ∀ s2, fitM cfg s2 = fitM cfg s := by
  have h1 : ∀ t, fitM cfg t = Except.error KDEError.invalidConfiguration := by
    intro t
    unfold fitM
    rw [if_pos hbad]
  exact ⟨h1 s, fun s2 => by rw [h1 s2, h1 s]⟩

/-- Witness for `fit_rejects_bad_alpha` at `alpha = 3/2` on the empty
sample. -/
theorem fit_rejects_bad_alpha_witness :
    fitM ⟨BwRule.silverman, 3/2, true⟩ []
        = Except.error KDEError.invalidConfiguration ∧
    ∀ s2, fitM ⟨BwRule.silverman, 3/2, true⟩ s2
        = fitM ⟨BwRule.silverman, 3/2, true⟩ [] :=
  fit_rejects_bad_alpha _ _ (Or.inr (by norm_num))

/-! ## C9: dimension-mismatched queries are rejected, model untouched -/

/-- C9: if any query point's dimensionality differs from the model's `d`,
`predict` fails with `DimensionMismatchError` and returns the model
unchanged. -/
theorem predict_rejects_dim_mismatch (M : FittedModel) (qs : List (List ℝ))
    (retLog : Bool) (hbad : ∃ q ∈ qs, q.length ≠ M.dim) :
    predictM M qs retLog = (Except.error KDEError.dimensionMismatch, M) := by
  obtain ⟨q, hq, hne⟩ := hbad
  have hall : ¬ (qs.all (fun q => q.length == M.dim) = true) := by
    rw [List.all_eq_true]
    intro hforall
    exact hne (by simpa using hforall q hq)
  unfold predictM
  rw [if_neg hall]

/-- Witness for `predict_rejects_dim_mismatch`: a 1-dimensional model
queried with a 2-dimensional point. -/
theorem predict_rejects_dim_mismatch_witness :
    predictM ⟨1, [[0]], [1], 1, [1], 1/2, true, BwRule.silverman⟩ [[0, 0]] false
      = (Except.error KDEError.dimensionMismatch,
          ⟨1, [[0]], [1], 1, [1], 1/2, true, BwRule.silverman⟩) :=
  predict_rejects_dim_mismatch _ _ _ ⟨[0, 0], by simp, by simp⟩

/-! ## C4: serialization round trip preserves behavior -/

/-- C4: deserializing the serialization of any well-formed fitted model
succeeds and yields a model whose `predict` results agree exactly with the
original's on every query set, and whose `sample` output is identical for
every generator state (reals carry full precision, so "within the
format's precision" is exact equality here). -/
theorem roundtrip_preserves_behavior (M : FittedModel) (hwf : wellFormed M) :
    ∃ M2, deserialize (serialize M) = Except.ok M2 ∧
      (∀ qs retLog, predictM M2 qs retLog = predictM M qs retLog) ∧
      (∀ ns r, sampleM M2 ns r = sampleM M ns r) := by
  refine ⟨M, ?_, fun _ _ => rfl, fun _ _ => rfl⟩
  show (if (∀ p ∈ M.sample, p.length = M.dim) ∧ M.globCov.length = M.dim ∧
        M.locFac.length = M.sample.length ∧ (∀ c ∈ M.globCov, 0 < c) ∧
        0 < M.globBw then
      Except.ok (⟨M.dim, M.sample, M.globCov, M.globBw, M.locFac, M.alpha,
        M.diagMode, M.bwRule⟩ : FittedModel)
    else Except.error KDEError.corruptModel) = Except.ok M
  have hwf2 : (∀ p ∈ M.sample, p.length = M.dim) ∧ M.globCov.length = M.dim ∧
      M.locFac.length = M.sample.length ∧ (∀ c ∈ M.globCov, 0 < c) ∧
      0 < M.globBw := hwf
  rw [if_pos hwf2]

/-- Witness for `roundtrip_preserves_behavior` at a concrete two-point
one-dimensional model. -/
theorem roundtrip_preserves_behavior_witness :
    ∃ M2, deserialize (serialize ⟨1, [[0], [1]], [1], 1, [1, 1], 1/2, true,
        BwRule.silverman⟩) = Except.ok M2 ∧
      (∀ qs retLog, predictM M2 qs retLog
        = predictM ⟨1, [[0], [1]], [1], 1, [1, 1], 1/2, true,
            BwRule.silverman⟩ qs retLog) ∧
      (∀ ns r, sampleM M2 ns r
        = sampleM ⟨1, [[0], [1]], [1], 1, [1, 1], 1/2, true,
            BwRule.silverman⟩ ns r) :=
  roundtrip_preserves_behavior _
    ⟨by simp, by simp, by simp, by simp, by norm_num⟩

/-! ## C5: sampling is reproducible and only advances the generator -/

lemma sampleSeq_state (M : FittedModel) (ns : ℕ) (r : Rng) :
    (sampleSeq M ns r).2.stream = r.stream ∧
    (sampleSeq M ns r).2.pos = r.pos + ns * (1 + M.dim) := by
  induction ns generalizing r with
  | zero => simp [sampleSeq]
  | succ k ih =>
    have h2 : sampleSeq M (k + 1) r
        = ((sampleOne M r).1 :: (sampleSeq M k (sampleOne M r).2).1,
            (sampleSeq M k (sampleOne M r).2).2) := rfl
    rw [h2]
    obtain ⟨hs, hp⟩ := ih (sampleOne M r).2
    refine ⟨by rw [hs]; rfl, ?_⟩
    rw [hp]
    show r.pos + 1 + M.dim + k * (1 + M.dim) = r.pos + (k + 1) * (1 + M.dim)
    ring

/-- C5: two `sample` calls on the same model with identically seeded
generators (same stream, same position) produce identical output
sequences; each of the `n_samples` draws consumes the generator in the
fixed order of one component-selection draw followed by one Gaussian draw
(`d` normals), so the final position is exactly `pos + n_samples·(1+d)`;
the stream itself and the model are returned unchanged — the only side
effect is the advanced position. -/
theorem sample_reproducible (M : FittedModel) (ns : ℕ) (r1 r2 : Rng)
    (hseed : r1.stream = r2.stream) (hpos : r1.pos = r2.pos) :
    (sampleM M ns r1).1.1 = (sampleM M ns r2).1.1 ∧
    (sampleM M ns r1).1.2.stream = r1.stream ∧
    (sampleM M ns r1).1.2.pos = r1.pos + ns * (1 + M.dim) ∧
    (sampleM M ns r1).2 = M := by
  obtain ⟨s1, p1⟩ := r1
  obtain ⟨s2, p2⟩ := r2
  have hs : s1 = s2 := hseed
  have hp : p1 = p2 := hpos
  subst hs
  subst hp
  exact ⟨rfl, (sampleSeq_state M ns ⟨s1, p1⟩).1,
    (sampleSeq_state M ns ⟨s1, p1⟩).2, rfl⟩

/-- Witness for `sample_reproducible`: one draw from a concrete one-point
one-dimensional model with the zero stream. -/
theorem sample_reproducible_witness :
    (sampleM ⟨1, [[0]], [1], 1, [1], 1/2, true, BwRule.silverman⟩ 1
        ⟨fun _ => 0, 0⟩).1.1
      = (sampleM ⟨1, [[0]], [1], 1, [1], 1/2, true, BwRule.silverman⟩ 1
        ⟨fun _ => 0, 0⟩).1.1 ∧
    (sampleM ⟨1, [[0]], [1], 1, [1], 1/2, true, BwRule.silverman⟩ 1
        ⟨fun _ => 0, 0⟩).1.2.stream = (fun _ => 0) ∧
    (sampleM ⟨1, [[0]], [1], 1, [1], 1/2, true, BwRule.silverman⟩ 1
        ⟨fun _ => 0, 0⟩).1.2.pos = 0 + 1 * (1 + 1) ∧
    (sampleM ⟨1, [[0]], [1], 1, [1], 1/2, true, BwRule.silverman⟩ 1
        ⟨fun _ => 0, 0⟩).2 = ⟨1, [[0]], [1], 1, [1], 1/2, true, BwRule.silverman⟩ :=
  sample_reproducible _ 1 _ _ rfl rfl

end AWKDE
